import Mathlib

/-!
Shallow embedding of the parallel log-filtering engine in `src/log/stash.py`
(class `Logstash`), together with theorems settling the specification claims.

Conventions of the embedding:
* A line read by `infile.readlines()` is a `String` that still carries its
  original terminator (Python `readlines` keeps the `"\n"`).
* Python `key in line` (substring containment) is `pyIn`.
* A Python `dict` whose insertion order matters is a `List (String × Nat)`
  association list; updating an existing key keeps its position (CPython
  semantics), inserting a new key appends.
* The iteration order of `set(filters)` is passed in explicitly as the order
  of the key list `keys`; `set` guarantees the keys are deduplicated, which
  appears as `keys.Nodup` hypotheses.
* Environmental effects (which partitions raise an exception, timestamps,
  `cpu_count`, file-system metadata) are parameters of the embedding.
-/

/-- `startsWithChars needle hay`: `needle` is a prefix of `hay` (character lists). -/
def startsWithChars : List Char → List Char → Bool
  | [], _ => true
  | _ :: _, [] => false
  | a :: as, b :: bs => a == b && startsWithChars as bs

/-- `containsChars needle hay`: `needle` occurs contiguously inside `hay`. -/
def containsChars (needle : List Char) : List Char → Bool
  | [] => needle.isEmpty
  | b :: bs => startsWithChars needle (b :: bs) || containsChars needle bs

/-- Python `key in line`: substring containment test on strings. -/
def pyIn (key line : String) : Bool :=
  containsChars key.data line.data

/-- `local_counts = {key: 0 for key in filter_keys}` in `worker_function`. -/
def initCounts (keys : List String) : List (String × Nat) :=
  keys.map (fun k => (k, 0))

/-- `local_counts[key] += 1`: bump the entry for `k` in the count map. -/
def bump (m : List (String × Nat)) (k : String) : List (String × Nat) :=
  m.map (fun p => if p.1 = k then (p.1, p.2 + 1) else p)

/-- The first filter key contained in `line` (Python `for key in filter_keys:
if key in line: ... break`, in iteration order). -/
def firstHit (keys : List String) (line : String) : Option String :=
  keys.find? (fun k => pyIn k line)

/-- Whether some filter key is contained in `line`. -/
def lineHit (keys : List String) (line : String) : Bool :=
  keys.any (fun k => pyIn k line)

/-- The main loop of `Logstash.worker_function`: walk the lines, and on the
first key contained in a line append `line + "\n"` and bump that key's
counter, then stop checking keys for this line. -/
def scanLines (keys : List String) : List String → List (String × Nat) → List String × List (String × Nat)
  | [], counts => ([], counts)
  | line :: rest, counts =>
    match firstHit keys line with
    | some k =>
      let r := scanLines keys rest (bump counts k)
      ((line ++ "\n") :: r.1, r.2)
    | none => scanLines keys rest counts

/-- `Logstash.worker_function` on a partition `lines` with filter keys
`keys` (no exception case): returns `(filtered_lines, local_counts)`. -/
def worker_function (lines keys : List String) : List String × List (String × Nat) :=
  scanLines keys lines (initCounts keys)

/-- The matched-line output of a worker on `lines`: the lines containing some
key, in source order, each with the extra `"\n"` the code appends. -/
def filteredMap (keys lines : List String) : List String :=
  (lines.filter (lineHit keys)).map (fun l => l ++ "\n")

/-- Number of lines of `lines` whose first matching key is `k`. -/
def tally (keys : List String) (k : String) (lines : List String) : Nat :=
  (lines.filter (fun l => decide (firstHit keys l = some k))).length

/-- Fuel-driven implementation of the chunking loop; the fuel only makes the
recursion structural and is irrelevant once it is at least the list length
(`pyChunksFuel_congr`). -/
def pyChunksFuel (cs : Nat) : Nat → List α → List (List α)
  | _, [] => []
  | 0, a :: rest => [a :: rest]
  | fuel + 1, a :: rest =>
    (a :: rest.take (cs - 1)) :: pyChunksFuel cs fuel (rest.drop (cs - 1))

/-- `lines[i:i+chunk_size]` slices taken by `for i in range(0, total_lines,
chunk_size)` in `_parallel_filter`. Meaningful for `cs ≥ 1`, which the code
guarantees via `chunk_size = max(1, total_lines // num_workers)`. -/
def pyChunks (cs : Nat) (l : List α) : List (List α) :=
  pyChunksFuel cs l.length l

theorem pyChunksFuel_congr (cs : Nat) :
    ∀ (f1 : Nat) (l : List α) (f2 : Nat), l.length ≤ f1 → l.length ≤ f2 →
      pyChunksFuel cs f1 l = pyChunksFuel cs f2 l := by
  intro f1
  induction f1 with
  | zero =>
    intro l f2 h1 _
    match l with
    | [] => cases f2 <;> rfl
    | a :: rest => simp at h1
  | succ f ih =>
    intro l f2 h1 h2
    match l with
    | [] => cases f2 <;> rfl
    | a :: rest =>
      match f2 with
      | 0 => simp at h2
      | f2 + 1 =>
        simp only [pyChunksFuel]
        congr 1
        apply ih
        · simp only [List.length_drop]
          simp only [List.length_cons] at h1
          omega
        · simp only [List.length_drop]
          simp only [List.length_cons] at h2
          omega

/-- The recurrence the chunking loop satisfies. -/
theorem pyChunks_cons (cs : Nat) (a : α) (rest : List α) :
    pyChunks cs (a :: rest) =
      (a :: rest.take (cs - 1)) :: pyChunks cs (rest.drop (cs - 1)) := by
  show pyChunksFuel cs (rest.length + 1) (a :: rest) = _
  simp only [pyChunksFuel]
  congr 1
  apply pyChunksFuel_congr
  · simp only [List.length_drop]; omega
  · simp only [List.length_drop]; omega

@[simp] theorem pyChunks_nil (cs : Nat) : pyChunks cs ([] : List α) = [] := rfl

/-- `filter_counts[key] = filter_counts.get(key, 0) + count` on the manager
dict: update in place if the key exists, else append it. -/
def dictAdd (fc : List (String × Nat)) (k : String) (c : Nat) : List (String × Nat) :=
  if fc.any (fun p => decide (p.1 = k)) then
    fc.map (fun p => if p.1 = k then (p.1, p.2 + c) else p)
  else fc ++ [(k, c)]

/-- The merge loop `for key, count in worker_counts.items(): ...`. -/
def mergeCounts (fc wc : List (String × Nat)) : List (String × Nat) :=
  wc.foldl (fun acc kv => dictAdd acc kv.1 kv.2) fc

/-- The message written to `sys.stderr` when merging a failed worker result
raises (the concrete interpreter diagnostic is abbreviated). -/
def workerErrMsg : String := "Worker error"

/-- Aggregation state of the result-collection loop in `_parallel_filter`:
lines written to the output file so far, `matched_lines`, `filter_counts`,
and the stderr messages emitted for failed partitions. -/
structure AggSt where
  out : List String
  matched : Nat
  counts : List (String × Nat)
  errs : List String
deriving DecidableEq, Repr

/-- One iteration of the result-collection loop. A worker result is a pair
`(filtered, second)` where `second` is either the counts dict (`Sum.inl`) or
the error string a faulted worker returned (`Sum.inr`). On a faulted result,
`writelines` and `matched_lines +=` still run (on the empty list), then
`.items()` on the string raises; the exception is caught and one message is
written to stderr, leaving counts untouched. -/
def aggStep (st : AggSt) (ret : List String × (List (String × Nat) ⊕ String)) : AggSt :=
  match ret.2 with
  | Sum.inl wc =>
    { st with out := st.out ++ ret.1
            , matched := st.matched + ret.1.length
            , counts := mergeCounts st.counts wc }
  | Sum.inr _ =>
    { st with out := st.out ++ ret.1
            , matched := st.matched + ret.1.length
            , errs := st.errs ++ [workerErrMsg] }

/-- The whole result-collection loop, from the empty initial state. -/
def collectResults (rets : List (List String × (List (String × Nat) ⊕ String))) : AggSt :=
  rets.foldl aggStep { out := [], matched := 0, counts := [], errs := [] }

/-- The value a dispatched partition delivers: the worker's normal return, or
`([], "Error: ...")` when an exception was raised inside the worker (the
`except` branch of `worker_function`). `fault` says whether this partition
raised. -/
def runPartition (keys : List String) (fault : Bool) (part : List String) :
    List String × (List (String × Nat) ⊕ String) :=
  if fault then ([], Sum.inr "Error")
  else ((worker_function part keys).1, Sum.inl (worker_function part keys).2)

/-- `Logstash._parallel_filter` on in-memory lines: partition, run the
workers (with `fault i` telling whether partition `i` raises), and collect
results in partition order. -/
def parallel_filter (lines keys : List String) (w : Nat) (fault : Nat → Bool) : AggSt :=
  collectResults
    (((pyChunks (max 1 (lines.length / w)) lines).enum).map
      (fun ip => runPartition keys (fault ip.1) ip.2))

/-- The `get_info` snapshot of the source file (filesystem metadata, content
hash, line count); an environmental input to the embedding. -/
structure FileInfo where
  file_name : String
  file_size : String
  created_at : String
  modified_at : String
  hash : String
  lineCount : Nat
deriving DecidableEq, Repr

/-- The `meta` block of the result payload. -/
structure MetaBlock where
  filter : String
  filtered_at : String
  file : FileInfo
deriving DecidableEq, Repr

/-- The JSON-shaped result payload of `Logstash.filter`: the `hits` dict (an
insertion-ordered association list) and the `meta` block. -/
structure Payload where
  hits : List (String × Nat)
  meta : MetaBlock
deriving DecidableEq, Repr

/-- The possible return values of `Logstash.filter`: the four error dicts,
the empty-filter warning dict, or the result payload. -/
inductive FilterResult where
  | errLogNotFound : FilterResult
  | errFilterNotFound : FilterResult
  | errInvalidJson : FilterResult
  | warnEmptyFilter : FilterResult
  | errFolderConflict : FilterResult
  | ok : Payload → FilterResult
deriving DecidableEq, Repr

/-- Observable world state touched by one `filter` call: whether the output
folder for this log stem exists, the text files written, the metadata
artifacts written, how many worker tasks were dispatched, and stderr. -/
structure World where
  folderExists : Bool
  files : List (String × String)
  metaFiles : List (String × Payload)
  workersStarted : Nat
  stderrLines : List String
deriving DecidableEq, Repr

/-- Environmental inputs of one `Logstash.filter` invocation: file-existence
facts, the parse of the filter file (`none` = `JSONDecodeError`, otherwise
the deduplicated keys of `set(filters)` in iteration order), the lines of
the log file as `readlines()` yields them, `cpu_count`, the per-partition
fault oracle, the log stem, the two timestamps the code formats, the filter
file name and the fresh `get_info` snapshot. -/
structure FilterEnv where
  logExists : Bool
  filterExists : Bool
  parsed : Option (List String)
  logLines : List String
  cpu : Nat
  fault : Nat → Bool
  stem : String
  fileTs : String
  metaTs : String
  filterName : String
  info : FileInfo

/-- Insert `x` into a descending-by-count list, before the first element
whose count is at most `x`'s. Since `sortDescByCount` inserts `x` into the
sorted tail, `x` — which originally precedes the tail — ends up before every
element of equal count, so equal counts keep their original relative order,
as in a stable sort. -/
def insertDesc (x : String × Nat) : List (String × Nat) → List (String × Nat)
  | [] => [x]
  | y :: ys => if y.2 ≤ x.2 then x :: y :: ys else y :: insertDesc x ys

/-- `sorted(filter_counts.items(), key=lambda item: item[1], reverse=True)`:
a stable sort descending by count. Python's sort is stable, and a stable
sort with respect to a fixed total preorder has a unique result, so this
stable insertion sort computes exactly what the source computes. -/
def sortDescByCount : List (String × Nat) → List (String × Nat)
  | [] => []
  | x :: xs => insertDesc x (sortDescByCount xs)

/-- Python dict insertion `d[k] = v`: overwrite in place if `k` is present
(keeping its position), else append. -/
def dictInsert (d : List (String × Nat)) (k : String) (v : Nat) : List (String × Nat) :=
  if d.any (fun p => decide (p.1 = k)) then
    d.map (fun p => if p.1 = k then (p.1, v) else p)
  else d ++ [(k, v)]

/-- The `hits` dict: `{"total": matched_lines, **{key: count for key, count
in sorted(...) if count > 0}}`. -/
def buildHits (total : Nat) (counts : List (String × Nat)) : List (String × Nat) :=
  ((sortDescByCount counts).filter (fun kv => decide (0 < kv.2))).foldl
    (fun d kv => dictInsert d kv.1 kv.2) [("total", total)]

/-- `num_workers = min(multiprocessing.cpu_count(), len(filter_keys) or 1)`. -/
def numWorkers (cpu : Nat) (keys : List String) : Nat :=
  min cpu (if keys.length = 0 then 1 else keys.length)

/-- `Logstash.filter`: validation checks in source order, then partitioned
filtering, payload assembly and artifact writes. Returns the result value
and the updated world. -/
def pyFilter (env : FilterEnv) (overwrite : Bool) (w : World) : FilterResult × World :=
  if env.logExists = false then (FilterResult.errLogNotFound, w)
  else if env.filterExists = false then (FilterResult.errFilterNotFound, w)
  else
    match env.parsed with
    | none => (FilterResult.errInvalidJson, w)
    | some keys =>
      if keys.isEmpty then (FilterResult.warnEmptyFilter, w)
      else if w.folderExists && !overwrite then (FilterResult.errFolderConflict, w)
      else
        let nw := numWorkers env.cpu keys
        let parts := pyChunks (max 1 (env.logLines.length / nw)) env.logLines
        let st := parallel_filter env.logLines keys nw env.fault
        let payload : Payload :=
          { hits := buildHits st.matched st.counts
          , meta := { filter := env.filterName, filtered_at := env.metaTs, file := env.info } }
        let outName := env.stem ++ "_" ++ env.fileTs ++ ".filtered.log"
        let metaName := env.stem ++ "_" ++ env.fileTs ++ ".metadata.json"
        (FilterResult.ok payload,
         { folderExists := true
         , files := w.files ++ [(outName, String.join st.out)]
         , metaFiles := w.metaFiles ++ [(metaName, payload)]
         , workersStarted := w.workersStarted + parts.length
         , stderrLines := w.stderrLines ++ st.errs })

/-- The aggregation state of the single filtering pass a `filter` call runs. -/
def filterAgg (env : FilterEnv) (keys : List String) : AggSt :=
  parallel_filter env.logLines keys (numWorkers env.cpu keys) env.fault

/-- The result payload a successful `filter` call builds. -/
def filterPayload (env : FilterEnv) (keys : List String) : Payload :=
  { hits := buildHits (filterAgg env keys).matched (filterAgg env keys).counts
  , meta := { filter := env.filterName, filtered_at := env.metaTs, file := env.info } }

/-!  ## Worker lemmas  -/

theorem firstHit_mem {keys : List String} {line k : String}
    (h : firstHit keys line = some k) : k ∈ keys :=
  List.mem_of_find?_eq_some h

theorem lineHit_of_firstHit {keys : List String} {line k : String}
    (h : firstHit keys line = some k) : lineHit keys line = true := by
  have hk := List.mem_of_find?_eq_some h
  have hp := List.find?_some h
  simp only [lineHit, List.any_eq_true]
  exact ⟨k, hk, hp⟩

theorem lineHit_of_firstHit_none {keys : List String} {line : String}
    (h : firstHit keys line = none) : lineHit keys line = false := by
  simp only [firstHit, List.find?_eq_none] at h
  simp only [lineHit, List.any_eq_false]
  exact h

theorem tally_nil (keys : List String) (k : String) : tally keys k [] = 0 := rfl

theorem tally_cons (keys : List String) (k : String) (l : String) (ls : List String) :
    tally keys k (l :: ls) =
      (if firstHit keys l = some k then 1 else 0) + tally keys k ls := by
  simp only [tally, List.filter_cons]
  by_cases h : firstHit keys l = some k
  · simp [h, Nat.add_comm]
  · simp [h]

theorem tally_append (keys : List String) (k : String) (l1 l2 : List String) :
    tally keys k (l1 ++ l2) = tally keys k l1 + tally keys k l2 := by
  simp [tally, List.filter_append]

theorem filteredMap_nil (keys : List String) : filteredMap keys [] = [] := rfl

theorem filteredMap_append (keys l1 l2 : List String) :
    filteredMap keys (l1 ++ l2) = filteredMap keys l1 ++ filteredMap keys l2 := by
  simp [filteredMap, List.filter_append]

theorem scanLines_fst (keys : List String) (lines : List String)
    (counts : List (String × Nat)) :
    (scanLines keys lines counts).1 = filteredMap keys lines := by
  induction lines generalizing counts with
  | nil => rfl
  | cons l ls ih =>
    simp only [scanLines]
    cases h : firstHit keys l with
    | some k =>
      simp only [filteredMap, List.filter_cons, lineHit_of_firstHit h, if_pos rfl,
        List.map_cons]
      simpa [filteredMap] using ih (bump counts k)
    | none =>
      simp only [filteredMap, List.filter_cons, lineHit_of_firstHit_none h]
      simpa [filteredMap] using ih counts

theorem scanLines_snd (keys : List String) (lines : List String)
    (counts : List (String × Nat)) :
    (scanLines keys lines counts).2 =
      counts.map (fun p => (p.1, p.2 + tally keys p.1 lines)) := by
  induction lines generalizing counts with
  | nil =>
    simp only [scanLines, tally_nil, Nat.add_zero]
    exact (List.map_id' counts).symm ▸ (by simp)
  | cons l ls ih =>
    simp only [scanLines]
    cases h : firstHit keys l with
    | some k =>
      simp only
      rw [ih (bump counts k)]
      simp only [bump, List.map_map]
      apply List.map_congr_left
      intro p _
      simp only [Function.comp]
      split_ifs with hp
      · simp [tally_cons, hp, h, Prod.mk.injEq]
        omega
      · have hne : ¬ (firstHit keys l = some p.1) := by
          intro hc
          rw [h] at hc
          exact hp (Option.some.inj hc).symm
        simp only [tally_cons, if_neg hne, Prod.mk.injEq, true_and]
        omega
    | none =>
      rw [ih counts]
      apply List.map_congr_left
      intro p _
      have hne : ¬ (firstHit keys l = some p.1) := by
        intro hc; rw [h] at hc; exact Option.noConfusion hc
      simp only [tally_cons, if_neg hne, Prod.mk.injEq, true_and]
      omega

theorem worker_fst (lines keys : List String) :
    (worker_function lines keys).1 = filteredMap keys lines :=
  scanLines_fst keys lines (initCounts keys)

theorem worker_snd (lines keys : List String) :
    (worker_function lines keys).2 = keys.map (fun k => (k, tally keys k lines)) := by
  unfold worker_function
  rw [scanLines_snd]
  simp [initCounts, List.map_map, Function.comp]

/-!  ## First-match accounting: the per-key tallies sum to the matched count  -/

theorem sum_map_add (f g : α → Nat) (l : List α) :
    (l.map (fun x => f x + g x)).sum = (l.map f).sum + (l.map g).sum := by
  induction l with
  | nil => rfl
  | cons a as ih => simp only [List.map_cons, List.sum_cons, ih]; omega

theorem sum_ite_eq_one (k0 : String) (keys : List String) (hnd : keys.Nodup)
    (hmem : k0 ∈ keys) :
    (keys.map (fun k => if k0 = k then (1 : Nat) else 0)).sum = 1 := by
  induction keys with
  | nil => cases hmem
  | cons a as ih =>
    rcases List.mem_cons.mp hmem with h | h
    · subst h
      simp only [List.map_cons, List.sum_cons]
      have hz : ((as.map (fun k => if k0 = k then (1 : Nat) else 0)).sum = 0) := by
        apply List.sum_eq_zero
        intro x hx
        obtain ⟨k, hk, rfl⟩ := List.mem_map.mp hx
        have hne : k0 ≠ k := by
          rintro rfl
          exact (List.nodup_cons.mp hnd).1 hk
        simp [hne]
      simp [hz]
    · have hne : k0 ≠ a := by
        rintro rfl
        exact (List.nodup_cons.mp hnd).1 h
      simp only [List.map_cons, if_neg hne, List.sum_cons, Nat.zero_add]
      exact ih (List.nodup_cons.mp hnd).2 h

theorem sum_tally (keys : List String) (hnd : keys.Nodup) (lines : List String) :
    (keys.map (fun k => tally keys k lines)).sum =
      (lines.filter (lineHit keys)).length := by
  induction lines with
  | nil =>
    simp only [tally_nil, List.filter_nil, List.length_nil]
    apply List.sum_eq_zero
    intro x hx
    obtain ⟨k, _, rfl⟩ := List.mem_map.mp hx
    rfl
  | cons l ls ih =>
    have hrw : (fun k => tally keys k (l :: ls)) =
        fun k => ((if firstHit keys l = some k then 1 else 0) + tally keys k ls) :=
      funext (fun k => tally_cons keys k l ls)
    rw [hrw, sum_map_add, ih]
    cases h : firstHit keys l with
    | some k0 =>
      have hmem := firstHit_mem h
      have h1 : (keys.map (fun k => if some k0 = some k then (1 : Nat) else 0)).sum = 1 := by
        have heq : (fun k => if some k0 = some k then (1 : Nat) else 0) =
            fun k => if k0 = k then (1 : Nat) else 0 := by
          funext k
          simp [Option.some.injEq]
        rw [heq]
        exact sum_ite_eq_one k0 keys hnd hmem
      rw [h1]
      simp [List.filter_cons, lineHit_of_firstHit h, Nat.add_comm]
    | none =>
      have h0 : (keys.map (fun k => if (none : Option String) = some k then (1 : Nat) else 0)).sum = 0 := by
        apply List.sum_eq_zero
        intro x hx
        obtain ⟨k, _, rfl⟩ := List.mem_map.mp hx
        simp
      rw [h0]
      simp [List.filter_cons, lineHit_of_firstHit_none h]

/-!  ## Dict-merge lemmas  -/

/-- Total count credited to key `k` by a list of dict entries. -/
def tallySum (k : String) (entries : List (String × Nat)) : Nat :=
  ((entries.filter (fun kv => decide (kv.1 = k))).map Prod.snd).sum

theorem tallySum_nil (k : String) : tallySum k [] = 0 := rfl

theorem tallySum_cons (k : String) (kv : String × Nat) (rest : List (String × Nat)) :
    tallySum k (kv :: rest) = (if kv.1 = k then kv.2 else 0) + tallySum k rest := by
  simp only [tallySum, List.filter_cons]
  by_cases h : kv.1 = k
  · simp [h, Nat.add_comm]
  · simp [h]

theorem dictAdd_present (fc : List (String × Nat)) (k : String) (c : Nat)
    (h : ∃ p ∈ fc, p.1 = k) :
    dictAdd fc k c = fc.map (fun p => if p.1 = k then (p.1, p.2 + c) else p) := by
  unfold dictAdd
  rw [if_pos]
  simp only [List.any_eq_true, decide_eq_true_eq]
  exact h

theorem dictAdd_fresh (fc : List (String × Nat)) (k : String) (c : Nat)
    (h : ∀ p ∈ fc, p.1 ≠ k) :
    dictAdd fc k c = fc ++ [(k, c)] := by
  unfold dictAdd
  rw [if_neg]
  simp only [List.any_eq_true, decide_eq_true_eq, not_exists]
  exact fun p hp => h p hp.1 hp.2

theorem map_fst_update (fc : List (String × Nat)) (k : String) (f : Nat → Nat) :
    (fc.map (fun p => if p.1 = k then (p.1, f p.2) else p)).map Prod.fst =
      fc.map Prod.fst := by
  rw [List.map_map]
  apply List.map_congr_left
  intro p _
  simp only [Function.comp]
  split_ifs <;> rfl

theorem mergeCounts_subset (entries : List (String × Nat)) :
    ∀ (acc : List (String × Nat)), (∀ kv ∈ entries, ∃ p ∈ acc, p.1 = kv.1) →
      mergeCounts acc entries = acc.map (fun p => (p.1, p.2 + tallySum p.1 entries)) := by
  induction entries with
  | nil =>
    intro acc _
    simp [mergeCounts, tallySum_nil]
  | cons kv rest ih =>
    intro acc hmem
    have hk : ∃ p ∈ acc, p.1 = kv.1 := hmem kv (List.mem_cons_self kv rest)
    show mergeCounts (dictAdd acc kv.1 kv.2) rest = _
    rw [dictAdd_present acc kv.1 kv.2 hk]
    rw [ih _ ?hsub]
    case hsub =>
      intro kv2 hkv2
      obtain ⟨p, hp, hpe⟩ := hmem kv2 (List.mem_cons_of_mem kv hkv2)
      refine ⟨(if p.1 = kv.1 then (p.1, p.2 + kv.2) else p), List.mem_map_of_mem _ hp, ?_⟩
      split_ifs <;> simpa using hpe
    rw [List.map_map]
    apply List.map_congr_left
    intro p _
    simp only [Function.comp]
    by_cases hp : p.1 = kv.1
    · rw [if_pos hp]
      simp [tallySum_cons, hp, Prod.mk.injEq]
      omega
    · rw [if_neg hp]
      have hne : kv.1 ≠ p.1 := fun hc => hp hc.symm
      simp [tallySum_cons, hne, Prod.mk.injEq]

theorem tallySum_eq_zero (k : String) (entries : List (String × Nat))
    (h : ∀ kv ∈ entries, kv.1 ≠ k) : tallySum k entries = 0 := by
  unfold tallySum
  have hfil : entries.filter (fun kv => decide (kv.1 = k)) = [] := by
    rw [List.filter_eq_nil_iff]
    intro kv hkv
    simpa using h kv hkv
  rw [hfil]
  rfl

theorem tallySum_map (g : String → Nat) (keys : List String) (hnd : keys.Nodup)
    (k : String) (hk : k ∈ keys) :
    tallySum k (keys.map (fun k2 => (k2, g k2))) = g k := by
  induction keys with
  | nil => cases hk
  | cons a as ih =>
    rcases List.mem_cons.mp hk with h | h
    · subst h
      have hz : tallySum k (as.map (fun k2 => (k2, g k2))) = 0 := by
        apply tallySum_eq_zero
        intro kv hkv
        obtain ⟨k2, hk2, rfl⟩ := List.mem_map.mp hkv
        intro hc
        exact (List.nodup_cons.mp hnd).1 (hc ▸ hk2)
      simp [List.map_cons, tallySum_cons, hz]
    · have hne : a ≠ k := by
        rintro rfl
        exact (List.nodup_cons.mp hnd).1 h
      simp only [List.map_cons, tallySum_cons, if_neg hne, Nat.zero_add]
      exact ih (List.nodup_cons.mp hnd).2 h

theorem mergeCounts_aligned (keys : List String) (hnd : keys.Nodup) (f g : String → Nat) :
    mergeCounts (keys.map (fun k => (k, f k))) (keys.map (fun k => (k, g k))) =
      keys.map (fun k => (k, f k + g k)) := by
  rw [mergeCounts_subset]
  · rw [List.map_map]
    apply List.map_congr_left
    intro k hk
    simp only [Function.comp]
    rw [tallySum_map g keys hnd k hk]
  · intro kv hkv
    obtain ⟨k, hk, rfl⟩ := List.mem_map.mp hkv
    exact ⟨(k, f k), List.mem_map_of_mem _ hk, rfl⟩

theorem mergeCounts_fresh (entries : List (String × Nat)) :
    ∀ acc, (∀ kv ∈ entries, ∀ p ∈ acc, p.1 ≠ kv.1) → (entries.map Prod.fst).Nodup →
      mergeCounts acc entries = acc ++ entries := by
  induction entries with
  | nil => intro acc _ _; simp [mergeCounts]
  | cons kv rest ih =>
    intro acc hfr hnd
    show mergeCounts (dictAdd acc kv.1 kv.2) rest = _
    rw [dictAdd_fresh acc kv.1 kv.2 (fun p hp => hfr kv (List.mem_cons_self kv rest) p hp)]
    rw [ih (acc ++ [(kv.1, kv.2)]) ?fr ?nd]
    · simp
    case fr =>
      intro kv2 hkv2 p hp
      rcases List.mem_append.mp hp with hp | hp
      · exact hfr kv2 (List.mem_cons_of_mem kv hkv2) p hp
      · have : p = (kv.1, kv.2) := List.mem_singleton.mp hp
        subst this
        simp only [List.map_cons, List.nodup_cons] at hnd
        intro hc
        exact hnd.1 (hc ▸ List.mem_map_of_mem Prod.fst hkv2)
    case nd =>
      simp only [List.map_cons, List.nodup_cons] at hnd
      exact hnd.2

/-!  ## Stable-sort lemmas  -/

theorem insertDesc_perm (x : String × Nat) (l : List (String × Nat)) :
    (insertDesc x l).Perm (x :: l) := by
  induction l with
  | nil => exact List.Perm.refl _
  | cons y ys ih =>
    simp only [insertDesc]
    split_ifs with h
    · exact List.Perm.refl _
    · exact (ih.cons y).trans (List.Perm.swap x y ys)

theorem sortDescByCount_perm (l : List (String × Nat)) :
    (sortDescByCount l).Perm l := by
  induction l with
  | nil => exact List.Perm.refl _
  | cons x xs ih => exact (insertDesc_perm x (sortDescByCount xs)).trans (ih.cons x)

theorem pairwise_insertDesc (x : String × Nat) (l : List (String × Nat))
    (h : l.Pairwise (fun a b => b.2 ≤ a.2)) :
    (insertDesc x l).Pairwise (fun a b => b.2 ≤ a.2) := by
  induction l with
  | nil => simp [insertDesc]
  | cons y ys ih =>
    rcases List.pairwise_cons.mp h with ⟨hy, hys⟩
    simp only [insertDesc]
    split_ifs with hle
    · refine List.pairwise_cons.mpr ⟨?_, h⟩
      intro z hz
      rcases List.mem_cons.mp hz with rfl | hz
      · exact hle
      · exact le_trans (hy z hz) hle
    · refine List.pairwise_cons.mpr ⟨?_, ih hys⟩
      intro z hz
      have hz2 : z ∈ x :: ys := (insertDesc_perm x ys).mem_iff.mp hz
      rcases List.mem_cons.mp hz2 with rfl | hz3
      · exact Nat.le_of_lt (Nat.lt_of_not_le hle)
      · exact hy z hz3

theorem sortDescByCount_pairwise (l : List (String × Nat)) :
    (sortDescByCount l).Pairwise (fun a b => b.2 ≤ a.2) := by
  induction l with
  | nil => simp [sortDescByCount]
  | cons x xs ih => exact pairwise_insertDesc x (sortDescByCount xs) ih

/-!  ## Chunking lemmas  -/

theorem pyChunksFuel_join (cs : Nat) :
    ∀ (fuel : Nat) (l : List α), l.length ≤ fuel → (pyChunksFuel cs fuel l).flatten = l := by
  intro fuel
  induction fuel with
  | zero =>
    intro l h
    match l with
    | [] => rfl
    | a :: rest => simp at h
  | succ f ih =>
    intro l h
    match l with
    | [] => rfl
    | a :: rest =>
      simp only [pyChunksFuel, List.flatten_cons]
      rw [ih (rest.drop (cs - 1)) (by simp only [List.length_drop]; simp only [List.length_cons] at h; omega)]
      simp [List.take_append_drop]

theorem pyChunks_join (cs : Nat) (l : List α) : (pyChunks cs l).flatten = l :=
  pyChunksFuel_join cs l.length l le_rfl

theorem pyChunksFuel_ne_nil (cs : Nat) :
    ∀ (fuel : Nat) (l : List α), ∀ c ∈ pyChunksFuel cs fuel l, c ≠ [] := by
  intro fuel
  induction fuel with
  | zero =>
    intro l c hc
    match l with
    | [] => cases hc
    | a :: rest =>
      rcases List.mem_cons.mp hc with rfl | h
      · simp
      · cases h
  | succ f ih =>
    intro l c hc
    match l with
    | [] => cases hc
    | a :: rest =>
      rcases List.mem_cons.mp hc with rfl | h
      · simp
      · exact ih _ c h

theorem pyChunks_ne_nil (cs : Nat) (l : List α) :
    ∀ c ∈ pyChunks cs l, c ≠ [] :=
  pyChunksFuel_ne_nil cs l.length l

theorem pyChunksFuel_get (cs : Nat) (hcs : 1 ≤ cs) :
    ∀ (fuel : Nat) (l : List α) (_ : l.length ≤ fuel)
      (k : Nat) (hk : k < (pyChunksFuel cs fuel l).length),
      (pyChunksFuel cs fuel l).get ⟨k, hk⟩ = (l.drop (cs * k)).take cs := by
  intro fuel
  induction fuel with
  | zero =>
    intro l h k hk
    match l with
    | [] => exact absurd hk (by simp [pyChunksFuel])
    | a :: rest => simp at h
  | succ f ih =>
    intro l h k hk
    match l with
    | [] => exact absurd hk (by simp [pyChunksFuel])
    | a :: rest =>
      obtain ⟨c, rfl⟩ : ∃ c, cs = c + 1 := ⟨cs - 1, by omega⟩
      match k with
      | 0 =>
        simp only [pyChunksFuel, List.get]
        simp [List.take_succ_cons, Nat.mul_zero, List.drop_zero]
      | k + 1 =>
        simp only [pyChunksFuel, List.get]
        rw [ih (rest.drop (c + 1 - 1))
          (by simp only [List.length_drop]; simp only [List.length_cons] at h; omega)]
        rw [List.drop_drop]
        have h1 : c + 1 - 1 + (c + 1) * k = (c + 1) * (k + 1) - 1 := by
          rw [Nat.mul_succ]
          omega
        rw [h1]
        have h2 : (a :: rest).drop ((c + 1) * (k + 1)) = rest.drop ((c + 1) * (k + 1) - 1) := by
          have h3 : (c + 1) * (k + 1) = ((c + 1) * (k + 1) - 1) + 1 := by
            have : 1 ≤ (c + 1) * (k + 1) := Nat.one_le_iff_ne_zero.mpr (by positivity)
            omega
          rw [h3, List.drop_succ_cons]
          simp
        rw [h2]

theorem pyChunks_get (cs : Nat) (hcs : 1 ≤ cs) (l : List α)
    (k : Nat) (hk : k < (pyChunks cs l).length) :
    (pyChunks cs l).get ⟨k, hk⟩ = (l.drop (cs * k)).take cs :=
  pyChunksFuel_get cs hcs l.length l le_rfl k hk

/-!  ## `hits`-dict lemmas  -/

theorem dictInsert_fresh (d : List (String × Nat)) (k : String) (v : Nat)
    (h : ∀ p ∈ d, p.1 ≠ k) :
    dictInsert d k v = d ++ [(k, v)] := by
  unfold dictInsert
  rw [if_neg]
  simp only [List.any_eq_true, decide_eq_true_eq, not_exists]
  exact fun p hp => h p hp.1 hp.2

theorem foldl_dictInsert_fresh (entries : List (String × Nat)) :
    ∀ d, (∀ kv ∈ entries, ∀ p ∈ d, p.1 ≠ kv.1) → (entries.map Prod.fst).Nodup →
      entries.foldl (fun d2 kv => dictInsert d2 kv.1 kv.2) d = d ++ entries := by
  induction entries with
  | nil => intro d _ _; simp
  | cons kv rest ih =>
    intro d hfr hnd
    show rest.foldl (fun d2 kv2 => dictInsert d2 kv2.1 kv2.2) (dictInsert d kv.1 kv.2) = _
    rw [dictInsert_fresh d kv.1 kv.2 (fun p hp => hfr kv (List.mem_cons_self kv rest) p hp)]
    rw [ih (d ++ [(kv.1, kv.2)]) ?fr ?nd]
    · simp
    case fr =>
      intro kv2 hkv2 p hp
      rcases List.mem_append.mp hp with hp | hp
      · exact hfr kv2 (List.mem_cons_of_mem kv hkv2) p hp
      · have he : p = (kv.1, kv.2) := List.mem_singleton.mp hp
        subst he
        simp only [List.map_cons, List.nodup_cons] at hnd
        intro hc
        exact hnd.1 (hc ▸ List.mem_map_of_mem Prod.fst hkv2)
    case nd =>
      simp only [List.map_cons, List.nodup_cons] at hnd
      exact hnd.2

theorem sum_filter_pos (l : List (String × Nat)) :
    ((l.filter (fun kv => decide (0 < kv.2))).map Prod.snd).sum =
      (l.map Prod.snd).sum := by
  induction l with
  | nil => rfl
  | cons kv rest ih =>
    simp only [List.filter_cons]
    by_cases h : 0 < kv.2
    · simp [h, ih]
    · have hz : kv.2 = 0 := by omega
      simp [h, ih, hz]

theorem map_fst_keyed (g : String → Nat) (keys : List String) :
    (keys.map (fun k => (k, g k))).map Prod.fst = keys := by
  rw [List.map_map]
  exact List.map_id keys

theorem buildHits_nil (total : Nat) : buildHits total [] = [("total", total)] := rfl

theorem buildHits_spec (total : Nat) (counts : List (String × Nat))
    (hnd : (counts.map Prod.fst).Nodup) (hnt : ∀ kv ∈ counts, kv.1 ≠ "total") :
    buildHits total counts =
      ("total", total) :: (sortDescByCount counts).filter (fun kv => decide (0 < kv.2)) := by
  unfold buildHits
  rw [foldl_dictInsert_fresh _ _ ?fr ?nd]
  · rfl
  case fr =>
    intro kv hkv p hp
    have hp2 : p = ("total", total) := List.mem_singleton.mp hp
    subst hp2
    have hin : kv ∈ counts :=
      (sortDescByCount_perm counts).mem_iff.mp (List.mem_of_mem_filter hkv)
    exact fun hc => hnt kv hin (hc.symm)
  case nd =>
    have h1 : ((sortDescByCount counts).map Prod.fst).Nodup :=
      (((sortDescByCount_perm counts).map Prod.fst).nodup_iff).mpr hnd
    exact h1.sublist ((List.filter_sublist _).map Prod.fst)

/-!  ## Aggregation: what the result-collection loop computes  -/

/-- Shape of the aggregation state after merging some prefix of the worker
results: `L` is the concatenation of the successfully scanned partitions so
far, `m` the number of failed partitions so far, `hasOk` whether at least
one partition succeeded (before the first success `filter_counts` is still
the empty dict). -/
def mkSt (keys : List String) (L : List String) (m : Nat) (hasOk : Bool) : AggSt :=
  { out := filteredMap keys L
  , matched := (filteredMap keys L).length
  , counts := if hasOk then keys.map (fun k => (k, tally keys k L)) else []
  , errs := List.replicate m workerErrMsg }

/-- The lines of the partitions that did not fault, in partition order. -/
def okLinesAux (l : List (Bool × List String)) : List String :=
  ((l.filter (fun bp => !bp.1)).map (fun bp => bp.2)).flatten

/-- The number of faulted partitions. -/
def failCountAux (l : List (Bool × List String)) : Nat :=
  (l.filter (fun bp => bp.1)).length

theorem collect_go (keys : List String) (hnd : keys.Nodup) (l : List (Bool × List String)) :
    ∀ (L : List String) (m : Nat) (hasOk : Bool), (hasOk = false → L = []) →
      List.foldl aggStep (mkSt keys L m hasOk)
          (l.map (fun bp => runPartition keys bp.1 bp.2)) =
        mkSt keys (L ++ okLinesAux l) (m + failCountAux l)
          (hasOk || l.any (fun bp => !bp.1)) := by
  induction l with
  | nil =>
    intro L m hasOk _
    simp [okLinesAux, failCountAux]
  | cons bp rest ih =>
    intro L m hasOk hw
    obtain ⟨b, part⟩ := bp
    simp only [List.map_cons, List.foldl_cons]
    cases b with
    | true =>
      have hstep : aggStep (mkSt keys L m hasOk) (runPartition keys true part) =
          mkSt keys L (m + 1) hasOk := by
        simp only [runPartition, if_pos rfl, aggStep, mkSt]
        simp [List.replicate_succ']
      rw [hstep, ih L (m + 1) hasOk hw]
      have e1 : okLinesAux ((true, part) :: rest) = okLinesAux rest := by
        simp [okLinesAux]
      have e2 : failCountAux ((true, part) :: rest) = failCountAux rest + 1 := by
        simp [failCountAux, Nat.add_comm]
      have e3 : ((true, part) :: rest).any (fun bp => !bp.1) =
          rest.any (fun bp => !bp.1) := by simp
      rw [e1, e2, e3]
      have e4 : m + 1 + failCountAux rest = m + (failCountAux rest + 1) := by omega
      rw [e4]
    | false =>
      have hcounts : mergeCounts (mkSt keys L m hasOk).counts (worker_function part keys).2 =
          keys.map (fun k => (k, tally keys k (L ++ part))) := by
        rw [worker_snd]
        cases hasOk with
        | false =>
          have hL : L = [] := hw rfl
          subst hL
          show mergeCounts [] _ = _
          rw [mergeCounts_fresh _ [] (fun kv _ p hp => absurd hp (List.not_mem_nil p))
            (by rw [map_fst_keyed]; exact hnd)]
          simp
        | true =>
          show mergeCounts (keys.map fun k => (k, tally keys k L)) _ = _
          rw [mergeCounts_aligned keys hnd]
          apply List.map_congr_left
          intro k _
          rw [tally_append]
      have hstep : aggStep (mkSt keys L m hasOk) (runPartition keys false part) =
          mkSt keys (L ++ part) m true := by
        simp only [runPartition, Bool.false_eq_true, if_false, aggStep]
        simp only [AggSt.mk.injEq, mkSt]
        refine ⟨?_, ?_, ?_, trivial⟩
        · rw [worker_fst, ← filteredMap_append]
        · rw [worker_fst, filteredMap_append, List.length_append]
        · exact hcounts
      rw [hstep, ih (L ++ part) m true (fun hc => absurd hc (by decide))]
      have e1 : okLinesAux ((false, part) :: rest) = part ++ okLinesAux rest := by
        simp [okLinesAux]
      have e2 : failCountAux ((false, part) :: rest) = failCountAux rest := by
        simp [failCountAux]
      have e3 : ((false, part) :: rest).any (fun bp2 => !bp2.1) = true := by simp
      rw [e1, e2, e3, List.append_assoc]
      simp

theorem collectResults_spec (keys : List String) (hnd : keys.Nodup)
    (l : List (Bool × List String)) :
    collectResults (l.map (fun bp => runPartition keys bp.1 bp.2)) =
      mkSt keys (okLinesAux l) (failCountAux l) (l.any (fun bp => !bp.1)) := by
  have hinit : ({ out := [], matched := 0, counts := [], errs := [] } : AggSt) =
      mkSt keys [] 0 false := by
    simp [mkSt, filteredMap]
  unfold collectResults
  rw [hinit, collect_go keys hnd l [] 0 false (fun _ => rfl)]
  simp

/-- The flags-and-partitions view of one `_parallel_filter` run. -/
def enumFlags (fault : Nat → Bool) (parts : List (List String)) :
    List (Bool × List String) :=
  parts.enum.map (fun ip => (fault ip.1, ip.2))

theorem parallel_filter_spec (lines keys : List String) (w : Nat) (fault : Nat → Bool)
    (hnd : keys.Nodup) :
    parallel_filter lines keys w fault =
      mkSt keys (okLinesAux (enumFlags fault (pyChunks (max 1 (lines.length / w)) lines)))
        (failCountAux (enumFlags fault (pyChunks (max 1 (lines.length / w)) lines)))
        ((enumFlags fault (pyChunks (max 1 (lines.length / w)) lines)).any
          (fun bp => !bp.1)) := by
  rw [← collectResults_spec keys hnd]
  unfold parallel_filter enumFlags
  congr 1
  rw [List.map_map]
  rfl

theorem okLinesAux_eq_nil (l : List (Bool × List String))
    (h : l.any (fun bp => !bp.1) = false) : okLinesAux l = [] := by
  unfold okLinesAux
  have hfil : l.filter (fun bp => !bp.1) = [] := by
    rw [List.filter_eq_nil_iff]
    intro bp hbp
    rw [List.any_eq_false] at h
    exact h bp hbp
  rw [hfil]
  rfl

theorem filteredMap_flatten (keys : List String) (Ls : List (List String)) :
    filteredMap keys Ls.flatten = (Ls.map (filteredMap keys)).flatten := by
  induction Ls with
  | nil => rfl
  | cons L rest ih => simp [filteredMap_append, ih]

theorem filteredMap_okLines (keys : List String) (l : List (Bool × List String)) :
    filteredMap keys (okLinesAux l) =
      (l.map (fun bp => if bp.1 then [] else filteredMap keys bp.2)).flatten := by
  induction l with
  | nil => rfl
  | cons bp rest ih =>
    obtain ⟨b, part⟩ := bp
    cases b with
    | true =>
      have e1 : okLinesAux ((true, part) :: rest) = okLinesAux rest := by
        simp [okLinesAux]
      rw [e1]
      simp only [List.map_cons, if_pos rfl, List.flatten_cons, List.nil_append]
      exact ih
    | false =>
      have e1 : okLinesAux ((false, part) :: rest) = part ++ okLinesAux rest := by
        simp [okLinesAux]
      rw [e1, filteredMap_append]
      simp only [List.map_cons, Bool.false_eq_true, if_false, List.flatten_cons]
      rw [ih]

theorem okLinesAux_enumFlags_false (parts : List (List String)) :
    okLinesAux (enumFlags (fun _ => false) parts) = parts.flatten := by
  unfold okLinesAux enumFlags
  rw [List.filter_map]
  have h1 : (fun bp : Bool × List String => !bp.1) ∘
      (fun ip : Nat × List String => (false, ip.2)) = fun _ => true := by
    funext ip; rfl
  rw [h1, List.filter_true, List.map_map]
  have h2 : ((fun bp : Bool × List String => bp.2) ∘
      (fun ip : Nat × List String => (false, ip.2))) = Prod.snd := by
    funext ip; rfl
  rw [h2, List.enum_map_snd]

/-!  ## The success path of `Logstash.filter`  -/

theorem pyFilter_ok (env : FilterEnv) (ow : Bool) (w : World) (keys : List String)
    (h1 : env.logExists = true) (h2 : env.filterExists = true)
    (h3 : env.parsed = some keys) (h4 : keys ≠ [])
    (h5 : w.folderExists = false ∨ ow = true) :
    pyFilter env ow w =
      (FilterResult.ok (filterPayload env keys),
       { folderExists := true
       , files := w.files ++ [(env.stem ++ "_" ++ env.fileTs ++ ".filtered.log",
           String.join (filterAgg env keys).out)]
       , metaFiles := w.metaFiles ++ [(env.stem ++ "_" ++ env.fileTs ++ ".metadata.json",
           filterPayload env keys)]
       , workersStarted := w.workersStarted +
           (pyChunks (max 1 (env.logLines.length / numWorkers env.cpu keys))
             env.logLines).length
       , stderrLines := w.stderrLines ++ (filterAgg env keys).errs }) := by
  have hkeys : keys.isEmpty = false := by
    cases keys with
    | nil => exact absurd rfl h4
    | cons a as => rfl
  have hconf : (w.folderExists && !ow) = false := by
    rcases h5 with h | h
    · rw [h]; rfl
    · rw [h]; simp
  unfold pyFilter
  rw [h1, h2, h3]
  simp only [Bool.true_eq_false, if_false, hkeys, hconf]
  rfl

/-- Shape of the `hits` dict a successful run builds, when no filter key is
the literal string `"total"`: the `"total"` entry heads the dict with the
matched-line total, and the remaining entries are exactly the positive
per-key aggregate counts, sorted descending by count. -/
theorem hits_shape (env : FilterEnv) (keys : List String) (hnd : keys.Nodup)
    (hnt : "total" ∉ keys) :
    ∃ rest,
      (filterPayload env keys).hits =
        ("total", (filterAgg env keys).matched) :: rest ∧
      rest.Perm ((filterAgg env keys).counts.filter (fun kv => decide (0 < kv.2))) ∧
      rest.Pairwise (fun a b => b.2 ≤ a.2) ∧
      (∀ kv ∈ rest, kv.1 ∈ keys ∧ 0 < kv.2) ∧
      (rest.map Prod.snd).sum = (filterAgg env keys).matched := by
  have hspec : filterAgg env keys =
      mkSt keys
        (okLinesAux (enumFlags env.fault
          (pyChunks (max 1 (env.logLines.length / numWorkers env.cpu keys)) env.logLines)))
        (failCountAux (enumFlags env.fault
          (pyChunks (max 1 (env.logLines.length / numWorkers env.cpu keys)) env.logLines)))
        ((enumFlags env.fault
          (pyChunks (max 1 (env.logLines.length / numWorkers env.cpu keys))
            env.logLines)).any (fun bp => !bp.1)) :=
    parallel_filter_spec env.logLines keys (numWorkers env.cpu keys) env.fault hnd
  have hhits : (filterPayload env keys).hits =
      buildHits (filterAgg env keys).matched (filterAgg env keys).counts := rfl
  cases hOk : (enumFlags env.fault
      (pyChunks (max 1 (env.logLines.length / numWorkers env.cpu keys))
        env.logLines)).any (fun bp => !bp.1) with
  | false =>
    have hL : okLinesAux (enumFlags env.fault
        (pyChunks (max 1 (env.logLines.length / numWorkers env.cpu keys)) env.logLines)) =
        [] := okLinesAux_eq_nil _ hOk
    have hcounts : (filterAgg env keys).counts = [] := by
      rw [hspec, hOk]
      simp [mkSt]
    have hm : (filterAgg env keys).matched = 0 := by
      rw [hspec, hL]
      simp [mkSt, filteredMap]
    refine ⟨[], ?_, ?_, List.Pairwise.nil, ?_, ?_⟩
    · rw [hhits, hcounts, hm, buildHits_nil]
    · rw [hcounts]
      exact List.Perm.refl _
    · intro kv hkv
      cases hkv
    · rw [hm]
      rfl
  | true =>
    have hcounts : (filterAgg env keys).counts =
        keys.map (fun k => (k, tally keys k
          (okLinesAux (enumFlags env.fault
            (pyChunks (max 1 (env.logLines.length / numWorkers env.cpu keys))
              env.logLines))))) := by
      rw [hspec, hOk]
      simp [mkSt]
    have hm : (filterAgg env keys).matched =
        (filteredMap keys
          (okLinesAux (enumFlags env.fault
            (pyChunks (max 1 (env.logLines.length / numWorkers env.cpu keys))
              env.logLines)))).length := by
      rw [hspec]
      simp [mkSt]
    have hndf : ((filterAgg env keys).counts.map Prod.fst).Nodup := by
      rw [hcounts, map_fst_keyed]
      exact hnd
    have hntf : ∀ kv ∈ (filterAgg env keys).counts, kv.1 ≠ "total" := by
      rw [hcounts]
      intro kv hkv
      obtain ⟨k, hk, rfl⟩ := List.mem_map.mp hkv
      intro hc
      exact hnt (hc ▸ hk)
    refine ⟨(sortDescByCount (filterAgg env keys).counts).filter
      (fun kv => decide (0 < kv.2)), ?_, ?_, ?_, ?_, ?_⟩
    · rw [hhits, buildHits_spec _ _ hndf hntf]
    · exact (sortDescByCount_perm _).filter _
    · exact (sortDescByCount_pairwise _).sublist (List.filter_sublist _)
    · intro kv hkv
      have hmem : kv ∈ sortDescByCount (filterAgg env keys).counts :=
        List.mem_of_mem_filter hkv
      have hmem2 : kv ∈ (filterAgg env keys).counts :=
        (sortDescByCount_perm _).mem_iff.mp hmem
      constructor
      · rw [hcounts] at hmem2
        obtain ⟨k, hk, rfl⟩ := List.mem_map.mp hmem2
        exact hk
      · have := List.of_mem_filter hkv
        exact of_decide_eq_true this
    · rw [sum_filter_pos]
      rw [((sortDescByCount_perm ((filterAgg env keys).counts)).map Prod.snd).sum_eq]
      rw [hcounts, List.map_map]
      have hcomp : (Prod.snd ∘ fun k => (k, tally keys k
          (okLinesAux (enumFlags env.fault
            (pyChunks (max 1 (env.logLines.length / numWorkers env.cpu keys))
              env.logLines))))) =
          fun k => tally keys k
            (okLinesAux (enumFlags env.fault
              (pyChunks (max 1 (env.logLines.length / numWorkers env.cpu keys))
                env.logLines))) := by
        funext k; rfl
      rw [hcomp, sum_tally keys hnd, hm]
      unfold filteredMap
      rw [List.length_map]

/-!  ## Concrete scenarios used by witnesses and counterexamples  -/

/-- A fresh world: no output folder, no files, no workers, empty stderr. -/
def world0 : World :=
  { folderExists := false, files := [], metaFiles := [], workersStarted := 0
  , stderrLines := [] }

/-- A fixed `get_info` snapshot (environmental input). -/
def infoC : FileInfo :=
  { file_name := "app.log", file_size := "64 bytes", created_at := "c"
  , modified_at := "m", hash := "h", lineCount := 4 }

/-- Two keys, two partitions, the second partition faults. -/
def envC7A : FilterEnv :=
  { logExists := true, filterExists := true, parsed := some ["ERROR", "WARN"]
  , logLines := ["ERROR a\n", "b\n", "c\n", "d\n"], cpu := 2
  , fault := fun i => decide (i = 1), stem := "app", fileTs := "t", metaTs := "mt"
  , filterName := "f.json", info := infoC }

/-- Same run as `envC7A` but with no faulting partition. -/
def envC7B : FilterEnv :=
  { logExists := true, filterExists := true, parsed := some ["ERROR", "WARN"]
  , logLines := ["ERROR a\n", "b\n", "c\n", "d\n"], cpu := 2
  , fault := fun _ => false, stem := "app", fileTs := "t", metaTs := "mt"
  , filterName := "f.json", info := infoC }

/-- A filter file whose keys include the literal string `"total"`: one line
matches the key `"total"` and two lines match the key `"x"`. -/
def envTotalKey : FilterEnv :=
  { logExists := true, filterExists := true, parsed := some ["total", "x"]
  , logLines := ["a total z\n", "x1\n", "x2\n"], cpu := 1
  , fault := fun _ => false, stem := "app", fileTs := "t", metaTs := "mt"
  , filterName := "f.json", info := infoC }

/-- Ten lines, used to exercise the partition plan. -/
def linesTen : List String :=
  ["a0", "a1", "a2", "a3", "a4", "a5", "a6", "a7", "a8", "a9"]

/-- The concrete scenario of the spec, section 8. -/
def linesSpec : List String :=
  ["ERROR a\n", "INFO b\n", "ERROR c\n", "WARN d\n", "ERROR e\n"]

/-!  ## Claim C1  -/

/-- C1 counterexample: with a filter key literally named `"total"`, the
dict-splat `{"total": matched_lines, **{...}}` lets the per-key entry
overwrite `hits["total"]`. On `envTotalKey` the run matches 3 lines, yet the
payload is `hits = {"total": 1, "x": 2}`: the sum of the per-key counts
other than `"total"` (2) does not equal the value stored under `"total"`
(1), and neither equals the matched-line count (3). -/
theorem C1_total_key_collision :
    (pyFilter envTotalKey false world0).1 =
      FilterResult.ok
        { hits := [("total", 1), ("x", 2)]
        , meta := { filter := "f.json", filtered_at := "mt", file := infoC } } ∧
    (filterAgg envTotalKey ["total", "x"]).matched = 3 ∧
    ¬ (((([("total", 1), ("x", 2)] : List (String × Nat)).filter
          (fun kv => decide (kv.1 ≠ "total"))).map Prod.snd).sum =
        ((([("total", 1), ("x", 2)] : List (String × Nat)).find?
          (fun kv => decide (kv.1 = "total"))).map Prod.snd).getD 0) := by
  decide

/-- C1 (amended: provided no filter key is the literal string `"total"`):
in every result payload the `hits` dict starts with a `"total"` entry whose
value is the total matched-line count, the other entries carry no `"total"`
key, and their counts sum to exactly that total — the first-match-wins
invariant. -/
theorem C1_sum_invariant_amended (env : FilterEnv) (ow : Bool) (w : World)
    (keys : List String)
    (h1 : env.logExists = true) (h2 : env.filterExists = true)
    (h3 : env.parsed = some keys) (h4 : keys ≠ [])
    (h5 : w.folderExists = false ∨ ow = true)
    (hnd : keys.Nodup) (hnt : "total" ∉ keys) :
    ∃ p rest,
      (pyFilter env ow w).1 = FilterResult.ok p ∧
      p.hits = ("total", (filterAgg env keys).matched) :: rest ∧
      (rest.map Prod.snd).sum = (filterAgg env keys).matched ∧
      (∀ kv ∈ rest, kv.1 ≠ "total") := by
  obtain ⟨rest, hh, hperm, hpw, hmem, hsum⟩ := hits_shape env keys hnd hnt
  refine ⟨filterPayload env keys, rest, ?_, hh, hsum, ?_⟩
  · rw [pyFilter_ok env ow w keys h1 h2 h3 h4 h5]
  · intro kv hkv hc
    exact hnt (hc ▸ (hmem kv hkv).1)

/-- C1 witness: the amended invariant holds on the concrete two-key run. -/
theorem C1_sum_invariant_witness :
    envC7B.logExists = true ∧ envC7B.filterExists = true ∧
    envC7B.parsed = some ["ERROR", "WARN"] ∧ (["ERROR", "WARN"] : List String) ≠ [] ∧
    (world0.folderExists = false ∨ false = true) ∧
    (["ERROR", "WARN"] : List String).Nodup ∧ "total" ∉ (["ERROR", "WARN"] : List String) ∧
    (∃ p rest,
      (pyFilter envC7B false world0).1 = FilterResult.ok p ∧
      p.hits = ("total", (filterAgg envC7B ["ERROR", "WARN"]).matched) :: rest ∧
      (rest.map Prod.snd).sum = (filterAgg envC7B ["ERROR", "WARN"]).matched ∧
      (∀ kv ∈ rest, kv.1 ≠ "total")) :=
  ⟨rfl, rfl, rfl, by decide, Or.inl rfl, by decide, by decide,
   C1_sum_invariant_amended envC7B false world0 ["ERROR", "WARN"]
     rfl rfl rfl (by decide) (Or.inl rfl) (by decide) (by decide)⟩

/-!  ## Claim C2  -/

/-- C2 (code bug): `readlines()` keeps each line's terminator, yet
`worker_function` appends `line + "\n"`, so every matched line that already
ends in a newline is written with a duplicated line ending. On the log
`"ERROR one\nok\n"` with filter key `"ERROR"`, one line matches
(`hits.total = 1`) but the filtered artifact content `"ERROR one\n\n"`
contains two newline characters, i.e. two lines — not `hits.total`. -/
theorem C2_newline_duplicated :
    (parallel_filter ["ERROR one\n", "ok\n"] ["ERROR"] 1 (fun _ => false)).out =
      ["ERROR one\n\n"] ∧
    (parallel_filter ["ERROR one\n", "ok\n"] ["ERROR"] 1 (fun _ => false)).matched = 1 ∧
    (String.join (parallel_filter ["ERROR one\n", "ok\n"] ["ERROR"] 1
      (fun _ => false)).out).data.count '\n' = 2 := by
  decide

/-!  ## Claim C3  -/

/-- C3 counterexample: the worker does not append the line itself — it
appends `line + "\n"`, which differs from the line (the line already ends
with its terminator). First-match-wins is visible in the counts: the line
contains both keys, and only `"ERROR"`, the first key in iteration order,
is credited. -/
theorem C3_appended_not_line :
    worker_function ["ERROR INFO x\n"] ["ERROR", "INFO"] =
      (["ERROR INFO x\n\n"], [("ERROR", 1), ("INFO", 0)]) ∧
    ("ERROR INFO x\n\n" : String) ≠ "ERROR INFO x\n" := by
  decide

/-- C3 (amended: the worker appends the line with one extra `"\n"`
appended, not the line itself; the rest of the claim stands): for every
partition the worker emits exactly the lines containing some key, in order,
each exactly once and mapped to `line ++ "\n"`, and the counter of a key is
exactly the number of lines whose first containing key (in iteration order)
it is — a line is credited to at most one key and a line containing no key
contributes to no count and no output. -/
theorem C3_first_match_wins (lines keys : List String) :
    worker_function lines keys =
      ((lines.filter (lineHit keys)).map (fun l => l ++ "\n"),
       keys.map (fun k => (k, tally keys k lines))) := by
  have h1 := worker_fst lines keys
  have h2 := worker_snd lines keys
  exact Prod.ext h1 h2

/-!  ## Claim C4  -/

/-- C4: for every line list and worker count `w ≥ 1`, the plan uses chunk
size `max 1 (n / w)` (integer division), walks the lines in chunk-size
strides (partition `k` is `lines[cs*k : cs*k+cs]`), every partition is
nonempty, and the partitions concatenate back to the whole line sequence —
contiguous, non-overlapping, exactly covering `[0, n)`. -/
theorem C4_partition_plan (lines : List String) (w : Nat) (hw : 1 ≤ w) :
    (pyChunks (max 1 (lines.length / w)) lines).flatten = lines ∧
    (∀ c ∈ pyChunks (max 1 (lines.length / w)) lines, c ≠ []) ∧
    (∀ (k : Nat) (hk : k < (pyChunks (max 1 (lines.length / w)) lines).length),
      (pyChunks (max 1 (lines.length / w)) lines).get ⟨k, hk⟩ =
        (lines.drop ((max 1 (lines.length / w)) * k)).take
          (max 1 (lines.length / w))) :=
  ⟨pyChunks_join _ lines, pyChunks_ne_nil _ lines,
   fun k hk => pyChunks_get _ (le_max_left 1 _) lines k hk⟩

/-- C4 witness: the plan on ten lines with three workers. -/
theorem C4_partition_plan_witness :
    1 ≤ 3 ∧
    ((pyChunks (max 1 (linesTen.length / 3)) linesTen).flatten = linesTen ∧
     (∀ c ∈ pyChunks (max 1 (linesTen.length / 3)) linesTen, c ≠ []) ∧
     (∀ (k : Nat) (hk : k < (pyChunks (max 1 (linesTen.length / 3)) linesTen).length),
       (pyChunks (max 1 (linesTen.length / 3)) linesTen).get ⟨k, hk⟩ =
         (linesTen.drop ((max 1 (linesTen.length / 3)) * k)).take
           (max 1 (linesTen.length / 3)))) :=
  ⟨by decide, C4_partition_plan linesTen 3 (by decide)⟩

/-!  ## Claim C5  -/

/-- C5: matched lines are concatenated in partition order — the output is
the flattening, over the partitions in source order, of each partition's
matched lines (empty for a faulted partition); on a fault-free run the
whole output equals the source lines filtered in place (each with the
worker's appended newline), and that filtered sequence is a sublist of the
source, so the relative source order of matched lines is preserved. -/
theorem C5_order_preserved (lines keys : List String) (w : Nat) (fault : Nat → Bool)
    (hnd : keys.Nodup) :
    (parallel_filter lines keys w fault).out =
      ((enumFlags fault (pyChunks (max 1 (lines.length / w)) lines)).map
        (fun bp => if bp.1 then [] else filteredMap keys bp.2)).flatten ∧
    (parallel_filter lines keys w (fun _ => false)).out =
      (lines.filter (lineHit keys)).map (fun l => l ++ "\n") ∧
    (lines.filter (lineHit keys)).Sublist lines := by
  refine ⟨?_, ?_, List.filter_sublist lines⟩
  · rw [parallel_filter_spec lines keys w fault hnd]
    show filteredMap keys (okLinesAux _) = _
    rw [filteredMap_okLines]
  · rw [parallel_filter_spec lines keys w (fun _ => false) hnd]
    show filteredMap keys (okLinesAux _) = _
    rw [okLinesAux_enumFlags_false, pyChunks_join]
    rfl

/-- C5 witness: the spec's concrete scenario with two workers. -/
theorem C5_order_preserved_witness :
    (["ERROR", "WARN"] : List String).Nodup ∧
    ((parallel_filter linesSpec ["ERROR", "WARN"] 2 (fun _ => false)).out =
       ((enumFlags (fun _ => false)
         (pyChunks (max 1 (linesSpec.length / 2)) linesSpec)).map
         (fun bp => if bp.1 then [] else filteredMap ["ERROR", "WARN"] bp.2)).flatten ∧
     (parallel_filter linesSpec ["ERROR", "WARN"] 2 (fun _ => false)).out =
       (linesSpec.filter (lineHit ["ERROR", "WARN"])).map (fun l => l ++ "\n") ∧
     (linesSpec.filter (lineHit ["ERROR", "WARN"])).Sublist linesSpec) :=
  ⟨by decide, C5_order_preserved linesSpec ["ERROR", "WARN"] 2 (fun _ => false) (by decide)⟩

/-!  ## Claim C6  -/

/-- C6: every non-payload result of `filter` — log or filter file missing,
malformed filter JSON, empty filter set (a warning), or an existing output
folder without `overwrite` — is returned as a value with the world
untouched: no output directory created, no file written, no worker started,
nothing on stderr; and in particular an empty filter spec yields the
warning with the world unchanged. -/
theorem C6_validation_short_circuit :
    ∀ (env : FilterEnv) (ow : Bool) (w : World),
      ((∀ p, (pyFilter env ow w).1 ≠ FilterResult.ok p) → (pyFilter env ow w).2 = w) ∧
      (env.logExists = true → env.filterExists = true → env.parsed = some [] →
        pyFilter env ow w = (FilterResult.warnEmptyFilter, w)) := by
  intro env ow w
  constructor
  · unfold pyFilter
    split
    · intro _; rfl
    · split
      · intro _; rfl
      · split
        · intro _; rfl
        · split
          · intro _; rfl
          · split
            · intro _; rfl
            · intro h
              exact absurd rfl (h _)
  · intro hl hf hp
    unfold pyFilter
    rw [hl, hf, hp]
    simp

/-- C6 witness: the empty filter spec returns the warning and leaves the
world untouched. -/
theorem C6_validation_witness :
    pyFilter
      { logExists := true, filterExists := true, parsed := some []
      , logLines := ["x\n"], cpu := 2, fault := fun _ => false, stem := "app"
      , fileTs := "t", metaTs := "mt", filterName := "f.json", info := infoC }
      false world0 = (FilterResult.warnEmptyFilter, world0) :=
  (C6_validation_short_circuit
    { logExists := true, filterExists := true, parsed := some []
    , logLines := ["x\n"], cpu := 2, fault := fun _ => false, stem := "app"
    , fileTs := "t", metaTs := "mt", filterName := "f.json", info := infoC }
    false world0).2 rfl rfl rfl

/-!  ## Claim C7  -/

/-- C7 counterexample: the outcome payload carries no count of failed
partitions. The run `envC7A` (second partition faults) and the run `envC7B`
(identical, no fault) produce exactly the same result value; the only trace
of the failure is a message on stderr. So a partition failure does not
"surface as a count of failed partitions alongside the outcome". -/
theorem C7_no_failure_count_in_outcome :
    (pyFilter envC7A false world0).1 = (pyFilter envC7B false world0).1 ∧
    (pyFilter envC7A false world0).2.stderrLines.length = 1 ∧
    (pyFilter envC7B false world0).2.stderrLines.length = 0 := by
  decide

/-- C7 (amended: the run is not aborted — a faulted partition contributes
nothing to the output, the matched total or the counts, and aggregation
proceeds with the remaining partitions; each failure surfaces as one error
message written to stderr, with no count of failed partitions in the
outcome payload itself): stderr holds exactly one message per faulted
partition, the output is the filtered concatenation of the non-faulted
partitions only, and the matched total equals the output length. -/
theorem C7_failure_isolated_amended (lines keys : List String) (w : Nat)
    (fault : Nat → Bool) (hnd : keys.Nodup) :
    (parallel_filter lines keys w fault).errs =
      List.replicate
        (failCountAux (enumFlags fault (pyChunks (max 1 (lines.length / w)) lines)))
        workerErrMsg ∧
    (parallel_filter lines keys w fault).out =
      filteredMap keys
        (okLinesAux (enumFlags fault (pyChunks (max 1 (lines.length / w)) lines))) ∧
    (parallel_filter lines keys w fault).matched =
      (parallel_filter lines keys w fault).out.length := by
  rw [parallel_filter_spec lines keys w fault hnd]
  exact ⟨rfl, rfl, rfl⟩

/-- C7 witness: the faulting two-partition run. -/
theorem C7_failure_isolated_witness :
    (["ERROR", "WARN"] : List String).Nodup ∧
    ((parallel_filter ["ERROR a\n", "b\n", "c\n", "d\n"] ["ERROR", "WARN"] 2
        (fun i => decide (i = 1))).errs =
      List.replicate
        (failCountAux (enumFlags (fun i => decide (i = 1))
          (pyChunks (max 1 ((["ERROR a\n", "b\n", "c\n", "d\n"] : List String).length / 2))
            ["ERROR a\n", "b\n", "c\n", "d\n"])))
        workerErrMsg ∧
     (parallel_filter ["ERROR a\n", "b\n", "c\n", "d\n"] ["ERROR", "WARN"] 2
        (fun i => decide (i = 1))).out =
      filteredMap ["ERROR", "WARN"]
        (okLinesAux (enumFlags (fun i => decide (i = 1))
          (pyChunks (max 1 ((["ERROR a\n", "b\n", "c\n", "d\n"] : List String).length / 2))
            ["ERROR a\n", "b\n", "c\n", "d\n"]))) ∧
     (parallel_filter ["ERROR a\n", "b\n", "c\n", "d\n"] ["ERROR", "WARN"] 2
        (fun i => decide (i = 1))).matched =
      (parallel_filter ["ERROR a\n", "b\n", "c\n", "d\n"] ["ERROR", "WARN"] 2
        (fun i => decide (i = 1))).out.length) :=
  ⟨by decide,
   C7_failure_isolated_amended ["ERROR a\n", "b\n", "c\n", "d\n"] ["ERROR", "WARN"] 2
     (fun i => decide (i = 1)) (by decide)⟩

/-!  ## Claim C8  -/

/-- C8: running `filter` twice with `overwrite = true` on the same
unchanged source and filter (same lines, same keys, same worker pool, same
fault behaviour) succeeds both times — the second run passes the conflict
check because `overwrite` is set — and the two payloads carry identical
`hits` and identical `meta.filter` and `meta.file`; only the timestamps
(and hence the artifact names derived from them) differ. -/
theorem C8_deterministic_hits (env : FilterEnv) (w0 : World) (keys : List String)
    (t1f t1m t2f t2m : String)
    (h1 : env.logExists = true) (h2 : env.filterExists = true)
    (h3 : env.parsed = some keys) (h4 : keys ≠ []) :
    ∃ p1 w1 p2 w2,
      pyFilter { env with fileTs := t1f, metaTs := t1m } true w0 =
        (FilterResult.ok p1, w1) ∧
      pyFilter { env with fileTs := t2f, metaTs := t2m } true w1 =
        (FilterResult.ok p2, w2) ∧
      p1.hits = p2.hits ∧
      p1.meta.filter = p2.meta.filter ∧
      p1.meta.file = p2.meta.file ∧
      p1.meta.filtered_at = t1m ∧ p2.meta.filtered_at = t2m := by
  have e1 := pyFilter_ok { env with fileTs := t1f, metaTs := t1m } true w0 keys
    h1 h2 h3 h4 (Or.inr rfl)
  have e2 := pyFilter_ok { env with fileTs := t2f, metaTs := t2m } true
    ({ folderExists := true
     , files := w0.files ++ [(env.stem ++ "_" ++ t1f ++ ".filtered.log",
         String.join (filterAgg { env with fileTs := t1f, metaTs := t1m } keys).out)]
     , metaFiles := w0.metaFiles ++ [(env.stem ++ "_" ++ t1f ++ ".metadata.json",
         filterPayload { env with fileTs := t1f, metaTs := t1m } keys)]
     , workersStarted := w0.workersStarted +
         (pyChunks (max 1 (env.logLines.length /
           numWorkers env.cpu keys)) env.logLines).length
     , stderrLines := w0.stderrLines ++
         (filterAgg { env with fileTs := t1f, metaTs := t1m } keys).errs }) keys
    h1 h2 h3 h4 (Or.inr rfl)
  exact ⟨_, _, _, _, e1, e2, rfl, rfl, rfl, rfl, rfl⟩

/-- C8 witness: the two-key run, repeated with two timestamps. -/
theorem C8_deterministic_hits_witness :
    envC7B.logExists = true ∧ envC7B.filterExists = true ∧
    envC7B.parsed = some ["ERROR", "WARN"] ∧ (["ERROR", "WARN"] : List String) ≠ [] ∧
    (∃ p1 w1 p2 w2,
      pyFilter { envC7B with fileTs := "t1", metaTs := "m1" } true world0 =
        (FilterResult.ok p1, w1) ∧
      pyFilter { envC7B with fileTs := "t2", metaTs := "m2" } true w1 =
        (FilterResult.ok p2, w2) ∧
      p1.hits = p2.hits ∧
      p1.meta.filter = p2.meta.filter ∧
      p1.meta.file = p2.meta.file ∧
      p1.meta.filtered_at = "m1" ∧ p2.meta.filtered_at = "m2") :=
  ⟨rfl, rfl, rfl, by decide,
   C8_deterministic_hits envC7B world0 ["ERROR", "WARN"] "t1" "m1" "t2" "m2"
     rfl rfl rfl (by decide)⟩

/-!  ## Claim C9  -/

/-- C9 counterexample: with a filter key literally named `"total"` the
claim fails. On `envTotalKey` both filter keys have positive aggregate
counts (`total ↦ 1`, `x ↦ 2`), yet the payload is
`hits = {"total": 1, "x": 2}`: the entries are not in descending count
order (1 precedes 2), because the dict-splat moved the key `"total"` into
the head slot reserved for the matched-line total. -/
theorem C9_total_key_order_violation :
    (pyFilter envTotalKey false world0).1 =
      FilterResult.ok
        { hits := [("total", 1), ("x", 2)]
        , meta := { filter := "f.json", filtered_at := "mt", file := infoC } } ∧
    (filterAgg envTotalKey ["total", "x"]).counts = [("total", 1), ("x", 2)] ∧
    ¬ ([("total", 1), ("x", 2)] : List (String × Nat)).Pairwise
      (fun a b => b.2 ≤ a.2) := by
  refine ⟨by decide, by decide, ?_⟩
  intro h
  have := (List.pairwise_cons.mp h).1 ("x", 2) (List.mem_singleton.mpr rfl)
  omega

/-- C9 (amended: provided no filter key is the literal string `"total"`):
the `hits` dict of every result payload is the `"total"` entry followed by
exactly the filter keys whose aggregate count is positive — a permutation
of the positive entries of the aggregate count dict — listed in descending
order of their counts. -/
theorem C9_hits_shape_amended (env : FilterEnv) (ow : Bool) (w : World)
    (keys : List String)
    (h1 : env.logExists = true) (h2 : env.filterExists = true)
    (h3 : env.parsed = some keys) (h4 : keys ≠ [])
    (h5 : w.folderExists = false ∨ ow = true)
    (hnd : keys.Nodup) (hnt : "total" ∉ keys) :
    ∃ p rest,
      (pyFilter env ow w).1 = FilterResult.ok p ∧
      p.hits = ("total", (filterAgg env keys).matched) :: rest ∧
      rest.Perm ((filterAgg env keys).counts.filter (fun kv => decide (0 < kv.2))) ∧
      (∀ kv ∈ rest, kv.1 ∈ keys ∧ 0 < kv.2) ∧
      rest.Pairwise (fun a b => b.2 ≤ a.2) := by
  obtain ⟨rest, hh, hperm, hpw, hmem, hsum⟩ := hits_shape env keys hnd hnt
  refine ⟨filterPayload env keys, rest, ?_, hh, hperm, hmem, hpw⟩
  rw [pyFilter_ok env ow w keys h1 h2 h3 h4 h5]

/-- C9 witness: the shape holds on the concrete two-key run. -/
theorem C9_hits_shape_witness :
    envC7B.logExists = true ∧ envC7B.filterExists = true ∧
    envC7B.parsed = some ["ERROR", "WARN"] ∧ (["ERROR", "WARN"] : List String) ≠ [] ∧
    (world0.folderExists = false ∨ false = true) ∧
    (["ERROR", "WARN"] : List String).Nodup ∧ "total" ∉ (["ERROR", "WARN"] : List String) ∧
    (∃ p rest,
      (pyFilter envC7B false world0).1 = FilterResult.ok p ∧
      p.hits = ("total", (filterAgg envC7B ["ERROR", "WARN"]).matched) :: rest ∧
      rest.Perm ((filterAgg envC7B ["ERROR", "WARN"]).counts.filter
        (fun kv => decide (0 < kv.2))) ∧
      (∀ kv ∈ rest, kv.1 ∈ (["ERROR", "WARN"] : List String) ∧ 0 < kv.2) ∧
      rest.Pairwise (fun a b => b.2 ≤ a.2)) :=
  ⟨rfl, rfl, rfl, by decide, Or.inl rfl, by decide, by decide,
   C9_hits_shape_amended envC7B false world0 ["ERROR", "WARN"]
     rfl rfl rfl (by decide) (Or.inl rfl) (by decide) (by decide)⟩

/-!  ## Claim C10  -/

/-- C10: the worker returns a pair on every input — on an internal
exception it returns the empty matched-line list paired with an error
string (`runPartition` with the fault flag set) — and when the aggregator
merges such a failed result, the caught merge step changes neither the
output lines, nor the matched total, nor the per-key counts: it only
writes one message to stderr, so the failed partition changes nothing. -/
theorem C10_worker_failure_skipped :
    ∀ (st : AggSt) (msg : String) (keys part : List String),
      runPartition keys true part = ([], Sum.inr "Error") ∧
      aggStep st ([], Sum.inr msg) =
        { st with errs := st.errs ++ [workerErrMsg] } := by
  intro st msg keys part
  refine ⟨rfl, ?_⟩
  simp [aggStep]
